import Mathlib

/-!
# Verified model of the Open3D tensor / nearest-neighbor-search contracts

The repository's source is a notebook that exercises a strided tensor engine
and a nearest-neighbor-search module; the engine itself is not part of the
source tree, only its observable contract (the spec) and the notebook's
recorded inputs/outputs are.  This file gives a shallow embedding of that
contract: scalar element values are modelled as rationals, buffers as lists,
and the stateful buffer store as an explicit heap.  Every definition whose
implementation is absent from the source is marked `Modelled from the spec:`
and follows the spec's words; the notebook's recorded outputs are used as
concrete test vectors.
-/

namespace O3D

/-- Modelled from the spec: the closed enumeration of element data types
(the source exercises Bool, Int32, Int64, Float32 and Float64). -/
inductive Dtype where
  | bool
  | int32
  | int64
  | float32
  | float64
  deriving DecidableEq, Repr

/-- Modelled from the spec: a device is a kind plus an ordinal. -/
inductive Device where
  | cpu (ordinal : Nat)
  | cuda (ordinal : Nat)
  deriving DecidableEq, Repr

/-- Modelled from the spec: the error kinds surfaced to the caller. -/
inductive Err where
  | invalidArgument
  | indexError
  | dtypeMismatch
  | deviceMismatch
  | shapeMismatch
  deriving DecidableEq, Repr

/-- Modelled from the spec: a dtype-tagged, device-tagged tensor materialized
as its row-major element list.  Float elements are modelled exactly as
rationals; this level of the model is used for the elementwise operations,
whose implementation is absent from the source. -/
structure SimpleTensor where
  dtype : Dtype
  device : Device
  shape : List Nat
  data : List ℚ
  deriving DecidableEq, Repr

/-- The rational 0/1 encoding of a boolean element. -/
def boolQ (b : Bool) : ℚ := if b then 1 else 0

/-- Modelled from the spec: the common shell of the binary logical operations
(`logical_and`, `logical_or`, `logical_xor`), whose implementation is absent
from the source.  Operands must share dtype, device and shape; an element is
true iff it is nonzero; per the notebook's recorded output (a Bool-typed
result tensor even for Float64 operands) the result dtype is always Bool. -/
def logicalBin (f : Bool → Bool → Bool) (a b : SimpleTensor) : Except Err SimpleTensor :=
  if a.device ≠ b.device then .error .deviceMismatch
  else if a.dtype ≠ b.dtype then .error .dtypeMismatch
  else if a.shape ≠ b.shape then .error .shapeMismatch
  else .ok { dtype := Dtype.bool
             device := a.device
             shape := a.shape
             data := List.zipWith (fun x y => boolQ (f (decide (x ≠ 0)) (decide (y ≠ 0))))
               a.data b.data }

/-- Elementwise logical and, from the notebook's `logical_and`. -/
def SimpleTensor.logical_and (a b : SimpleTensor) : Except Err SimpleTensor :=
  logicalBin Bool.and a b

/-- Elementwise logical or, from the notebook's `logical_or`. -/
def SimpleTensor.logical_or (a b : SimpleTensor) : Except Err SimpleTensor :=
  logicalBin Bool.or a b

/-- Elementwise logical xor, from the notebook's `logical_xor`. -/
def SimpleTensor.logical_xor (a b : SimpleTensor) : Except Err SimpleTensor :=
  logicalBin Bool.xor a b

/-- The notebook's tensor `c = o3c.Tensor(np.array([2.0, 0.0, 3.5, 0.0]))`. -/
def nbC : SimpleTensor :=
  { dtype := Dtype.float64, device := Device.cpu 0, shape := [4], data := [2, 0, 7/2, 0] }

/-- The notebook's tensor `d = o3c.Tensor(np.array([0.0, 3.0, 1.5, 0.0]))`. -/
def nbD : SimpleTensor :=
  { dtype := Dtype.float64, device := Device.cpu 0, shape := [4], data := [0, 3, 3/2, 0] }

/-- Element lookup of a zipWith through optional indexing. -/
theorem zipWith_get? {α β γ : Type} (f : α → β → γ) :
    ∀ (l₁ : List α) (l₂ : List β) (i : Nat) (x : α) (y : β),
      l₁.get? i = some x → l₂.get? i = some y →
      (List.zipWith f l₁ l₂).get? i = some (f x y)
  | [], _, _, _, _, h, _ => by simp at h
  | _ :: _, [], _, _, _, _, h => by simp at h
  | a :: l₁, b :: l₂, 0, x, y, h₁, h₂ => by
    simp at h₁ h₂
    simp [h₁, h₂]
  | a :: l₁, b :: l₂, i + 1, x, y, h₁, h₂ => by
    simpa using zipWith_get? f l₁ l₂ i x y (by simpa using h₁) (by simpa using h₂)

/-- The conclusion of claim C1 (amended) at a pair of operand tensors: each
logical binary operation succeeds, produces a Bool-typed tensor over the
operands' device and shape, and each result element is 1 or 0 according to
whether the corresponding operands are nonzero under the operation's
truth function. -/
def LogicalOpsSpec (a b : SimpleTensor) : Prop :=
  (∃ t, a.logical_and b = .ok t ∧ t.dtype = Dtype.bool ∧ t.device = a.device ∧
    t.shape = a.shape ∧
    ∀ i x y, a.data.get? i = some x → b.data.get? i = some y →
      t.data.get? i = some (if x ≠ 0 ∧ y ≠ 0 then (1 : ℚ) else 0)) ∧
  (∃ t, a.logical_or b = .ok t ∧ t.dtype = Dtype.bool ∧ t.device = a.device ∧
    t.shape = a.shape ∧
    ∀ i x y, a.data.get? i = some x → b.data.get? i = some y →
      t.data.get? i = some (if x ≠ 0 ∨ y ≠ 0 then (1 : ℚ) else 0)) ∧
  (∃ t, a.logical_xor b = .ok t ∧ t.dtype = Dtype.bool ∧ t.device = a.device ∧
    t.shape = a.shape ∧
    ∀ i x y, a.data.get? i = some x → b.data.get? i = some y →
      t.data.get? i = some (if Xor' (x ≠ 0) (y ≠ 0) then (1 : ℚ) else 0))

theorem logicalBin_spec (f : Bool → Bool → Bool) (a b : SimpleTensor)
    (hdt : a.dtype = b.dtype) (hdev : a.device = b.device) (hsh : a.shape = b.shape) :
    ∃ t, logicalBin f a b = .ok t ∧ t.dtype = Dtype.bool ∧ t.device = a.device ∧
      t.shape = a.shape ∧
      ∀ i x y, a.data.get? i = some x → b.data.get? i = some y →
        t.data.get? i = some (boolQ (f (decide (x ≠ 0)) (decide (y ≠ 0)))) := by
  have heq : logicalBin f a b = .ok
      { dtype := Dtype.bool
        device := a.device
        shape := a.shape
        data := List.zipWith (fun x y => boolQ (f (decide (x ≠ 0)) (decide (y ≠ 0))))
          a.data b.data } := by
    unfold logicalBin
    simp [hdt, hdev, hsh]
  exact ⟨_, heq, rfl, rfl, rfl, fun i x y hx hy => zipWith_get? _ a.data b.data i x y hx hy⟩

/-- C1 (amended): for every pair of non-boolean tensors of the same shape,
dtype and device, each logical binary operation (logical_and, logical_or,
logical_xor) treats an element as true iff it is nonzero, and the result
tensor materializes the elementwise truth values as a Bool-typed tensor
(not in the operands' own dtype). -/
theorem c1_logical_ops_nonzero (a b : SimpleTensor)
    (hdt : a.dtype = b.dtype) (hdev : a.device = b.device) (hsh : a.shape = b.shape)
    (hnb : a.dtype ≠ Dtype.bool) :
    LogicalOpsSpec a b := by
  refine ⟨?_, ?_, ?_⟩
  · obtain ⟨t, h1, h2, h3, h4, h5⟩ := logicalBin_spec Bool.and a b hdt hdev hsh
    refine ⟨t, h1, h2, h3, h4, fun i x y hx hy => ?_⟩
    have := h5 i x y hx hy
    by_cases hx0 : x = 0 <;> by_cases hy0 : y = 0 <;>
      simpa [boolQ, hx0, hy0] using this
  · obtain ⟨t, h1, h2, h3, h4, h5⟩ := logicalBin_spec Bool.or a b hdt hdev hsh
    refine ⟨t, h1, h2, h3, h4, fun i x y hx hy => ?_⟩
    have := h5 i x y hx hy
    by_cases hx0 : x = 0 <;> by_cases hy0 : y = 0 <;>
      simpa [boolQ, hx0, hy0] using this
  · obtain ⟨t, h1, h2, h3, h4, h5⟩ := logicalBin_spec Bool.xor a b hdt hdev hsh
    refine ⟨t, h1, h2, h3, h4, fun i x y hx hy => ?_⟩
    have := h5 i x y hx hy
    by_cases hx0 : x = 0 <;> by_cases hy0 : y = 0 <;>
      simpa [boolQ, Xor', hx0, hy0] using this

/-- C1 witness: the amended claim instantiated at the notebook's Float64
tensors c and d. -/
theorem c1_logical_ops_nonzero_witness : LogicalOpsSpec nbC nbD :=
  c1_logical_ops_nonzero nbC nbD rfl rfl rfl (by decide)

/-- C1 counterexample: on the notebook's own non-boolean (Float64) example
tensors, logical_and returns a Bool-typed tensor (matching the notebook's
recorded output `[False False True False]` with dtype Bool), not a tensor in
the operands' own Float64 dtype as the claim states. -/
theorem c1_counterexample :
    nbC.dtype = Dtype.float64 ∧ nbD.dtype = Dtype.float64 ∧
    nbC.logical_and nbD =
      .ok { dtype := Dtype.bool, device := Device.cpu 0, shape := [4],
            data := [0, 0, 1, 0] } ∧
    Dtype.bool ≠ Dtype.float64 := by
  refine ⟨rfl, rfl, ?_, by decide⟩
  show logicalBin Bool.and nbC nbD = _
  unfold logicalBin nbC nbD
  norm_num [boolQ]

/-- Truncation of a rational toward zero, the spec's float-to-int
conversion rule. -/
def ratTrunc (q : ℚ) : ℤ := if 0 ≤ q then ⌊q⌋ else ⌈q⌉

/-- Two's-complement wrap of an integer into the signed w-bit range, the
deterministic documented out-of-range behavior chosen for the model. -/
def wrapInt (w : Nat) (n : ℤ) : ℤ := (n + 2 ^ (w - 1)) % 2 ^ w - 2 ^ (w - 1)

/-- Lower bound of a dtype's representable integer range. -/
def Dtype.lo : Dtype → ℤ
  | Dtype.int32 => -(2 ^ 31)
  | Dtype.int64 => -(2 ^ 63)
  | _ => 0

/-- Exclusive upper bound of a dtype's representable integer range. -/
def Dtype.hi : Dtype → ℤ
  | Dtype.int32 => 2 ^ 31
  | Dtype.int64 => 2 ^ 63
  | _ => 0

/-- Whether a dtype is one of the signed integer types. -/
def Dtype.isInt : Dtype → Bool
  | Dtype.int32 => true
  | Dtype.int64 => true
  | _ => false

/-- Whether a dtype is one of the float types. -/
def Dtype.isFloat : Dtype → Bool
  | Dtype.float32 => true
  | Dtype.float64 => true
  | _ => false

/-- Modelled from the spec: elementwise dtype conversion, whose
implementation is absent from the source.  Float targets are modelled
exactly on the rationals; integer targets truncate toward zero and wrap
out-of-range values in two's complement (the model's documented,
deterministic overflow choice); the Bool target maps nonzero to 1. -/
def castElem : Dtype → ℚ → ℚ
  | Dtype.bool, q => if q = 0 then 0 else 1
  | Dtype.int32, q => (wrapInt 32 (ratTrunc q) : ℤ)
  | Dtype.int64, q => (wrapInt 64 (ratTrunc q) : ℤ)
  | Dtype.float32, q => q
  | Dtype.float64, q => q

/-- Modelled from the spec: `cast(dtype)` (the notebook's `Tensor.to`)
produces a new owned tensor with elementwise converted values. -/
def SimpleTensor.to (t : SimpleTensor) (d : Dtype) : SimpleTensor :=
  { dtype := d, device := t.device, shape := t.shape, data := t.data.map (castElem d) }

theorem wrapInt_eq_self {w : Nat} {n : ℤ} (hw : 1 ≤ w)
    (hlo : -(2 ^ (w - 1)) ≤ n) (hhi : n < 2 ^ (w - 1)) : wrapInt w n = n := by
  unfold wrapInt
  have h2 : (2 : ℤ) ^ w = 2 ^ (w - 1) * 2 := by
    rw [← pow_succ]
    congr 1
    omega
  have h0 : (0 : ℤ) ≤ n + 2 ^ (w - 1) := by omega
  have h1 : n + 2 ^ (w - 1) < 2 ^ w := by
    rw [h2]; omega
  rw [Int.emod_eq_of_lt h0 h1]
  omega

theorem ratTrunc_intCast (n : ℤ) : ratTrunc (n : ℚ) = n := by
  unfold ratTrunc
  split <;> simp

theorem castElem_int_of_fits {d : Dtype} {n : ℤ} (hd : d.isInt = true)
    (hlo : d.lo ≤ n) (hhi : n < d.hi) : castElem d (n : ℚ) = n := by
  cases d <;> simp_all [Dtype.isInt, Dtype.lo, Dtype.hi, castElem, ratTrunc_intCast]
  · rw [wrapInt_eq_self (by norm_num) (by exact_mod_cast hlo) (by exact_mod_cast hhi)]
  · rw [wrapInt_eq_self (by norm_num) (by exact_mod_cast hlo) (by exact_mod_cast hhi)]

theorem map_id_of_forall {α : Type} (f : α → α) :
    ∀ l : List α, (∀ x ∈ l, f x = x) → l.map f = l
  | [], _ => rfl
  | a :: l, h => by
    have ha := h a (by simp)
    have hl := map_id_of_forall f l (fun x hx => h x (by simp [hx]))
    simp [ha, hl]

theorem ceilNonpos {q : ℚ} (h : q ≤ 0) : ⌈q⌉ ≤ 0 :=
  Int.ceil_le.2 (by exact_mod_cast h)

theorem ratTrunc_abs_le (q : ℚ) : |((ratTrunc q : ℤ) : ℚ)| ≤ |q| := by
  unfold ratTrunc
  split
  · rename_i h
    rw [abs_of_nonneg h, abs_of_nonneg (by exact_mod_cast Int.floor_nonneg.2 h)]
    exact Int.floor_le q
  · rename_i h
    push_neg at h
    rw [abs_of_nonpos h.le, abs_of_nonpos (by exact_mod_cast ceilNonpos h.le)]
    exact neg_le_neg (Int.le_ceil q)

theorem ratTrunc_abs_gt (q : ℚ) : |q| < |((ratTrunc q : ℤ) : ℚ)| + 1 := by
  unfold ratTrunc
  split
  · rename_i h
    rw [abs_of_nonneg h, abs_of_nonneg (by exact_mod_cast Int.floor_nonneg.2 h)]
    exact Int.lt_floor_add_one q
  · rename_i h
    push_neg at h
    rw [abs_of_nonpos h.le, abs_of_nonpos (by exact_mod_cast ceilNonpos h.le)]
    have := Int.ceil_lt_add_one q
    linarith

theorem ratTrunc_nonneg {q : ℚ} (h : 0 ≤ q) : 0 ≤ ratTrunc q := by
  unfold ratTrunc
  simp [h, Int.floor_nonneg.2 h]

theorem ratTrunc_nonpos {q : ℚ} (h : q ≤ 0) : ratTrunc q ≤ 0 := by
  unfold ratTrunc
  split
  · rename_i h'
    have : q = 0 := le_antisymm h h'
    simp [this]
  · exact ceilNonpos h

/-- C9: for every tensor of integer data whose values fit in a narrower
dtype, casting to that dtype and then back to the original dtype is the
identity; and for every float tensor, casting to an integer dtype converts
each in-range element by truncation toward zero (the result is the unique
integer with the same sign as the element whose magnitude is the floor of
the element's magnitude). -/
theorem c9_cast_roundtrip_and_truncation :
    (∀ (t : SimpleTensor) (d : Dtype), t.dtype.isInt = true → d.isInt = true →
      (∀ x ∈ t.data, ∃ n : ℤ, x = (n : ℚ) ∧ d.lo ≤ n ∧ n < d.hi ∧
        t.dtype.lo ≤ n ∧ n < t.dtype.hi) →
      (t.to d).to t.dtype = t) ∧
    (∀ (t : SimpleTensor) (d : Dtype), t.dtype.isFloat = true → d.isInt = true →
      ∀ i q, t.data.get? i = some q → d.lo ≤ ratTrunc q → ratTrunc q < d.hi →
        (t.to d).data.get? i = some ((ratTrunc q : ℤ) : ℚ) ∧
        |((ratTrunc q : ℤ) : ℚ)| ≤ |q| ∧ |q| < |((ratTrunc q : ℤ) : ℚ)| + 1 ∧
        (0 ≤ q → 0 ≤ ratTrunc q) ∧ (q ≤ 0 → ratTrunc q ≤ 0)) := by
  constructor
  · intro t d hti hdi hfit
    have hpt : ∀ x ∈ t.data, castElem t.dtype (castElem d x) = x := by
      intro x hx
      obtain ⟨n, rfl, h1, h2, h3, h4⟩ := hfit x hx
      rw [castElem_int_of_fits hdi h1 h2, castElem_int_of_fits hti h3 h4]
    have hdata : (t.data.map (castElem d)).map (castElem t.dtype) = t.data := by
      rw [List.map_map]
      exact map_id_of_forall _ t.data hpt
    cases t with
    | mk dt dev sh da => simpa [SimpleTensor.to] using hdata
  · intro t d htf hdi i q hq hlo hhi
    refine ⟨?_, ratTrunc_abs_le q, ratTrunc_abs_gt q,
      fun h => ratTrunc_nonneg h, fun h => ratTrunc_nonpos h⟩
    have hce : castElem d q = ((ratTrunc q : ℤ) : ℚ) := by
      cases d <;> simp_all [Dtype.isInt, castElem]
      · rw [wrapInt_eq_self (by norm_num) (by simpa [Dtype.lo] using hlo)
          (by simpa [Dtype.hi] using hhi)]
      · rw [wrapInt_eq_self (by norm_num) (by simpa [Dtype.lo] using hlo)
          (by simpa [Dtype.hi] using hhi)]
    show (t.data.map (castElem d)).get? i = _
    simp only [List.get?_eq_getElem?] at hq ⊢
    rw [List.getElem?_map, hq]
    simp [hce]

/-- The notebook's tensor `a = o3c.Tensor([0.1, 1.5, 2.7])`. -/
def nbFloat : SimpleTensor :=
  { dtype := Dtype.float64, device := Device.cpu 0, shape := [3], data := [1/10, 3/2, 27/10] }

/-- An Int64 tensor holding the notebook's cast result `[0 1 2]`. -/
def nbInt : SimpleTensor :=
  { dtype := Dtype.int64, device := Device.cpu 0, shape := [3], data := [0, 1, 2] }

/-- C9 witness: the cast claim instantiated at an Int64 tensor fitting Int32
(round trip) and at the notebook's Float64 tensor `[0.1, 1.5, 2.7]`. -/
theorem c9_cast_roundtrip_and_truncation_witness :
    (nbInt.to Dtype.int32).to nbInt.dtype = nbInt ∧
    (nbFloat.to Dtype.int32).data.get? 2 = some ((ratTrunc (27/10) : ℤ) : ℚ) := by
  constructor
  · refine c9_cast_roundtrip_and_truncation.1 nbInt Dtype.int32 rfl rfl ?_
    intro x hx
    simp [nbInt] at hx
    rcases hx with rfl | rfl | rfl
    · exact ⟨0, by norm_num [nbInt, Dtype.lo, Dtype.hi]⟩
    · exact ⟨1, by norm_num [nbInt, Dtype.lo, Dtype.hi]⟩
    · exact ⟨2, by norm_num [nbInt, Dtype.lo, Dtype.hi]⟩
  · exact (c9_cast_roundtrip_and_truncation.2 nbFloat Dtype.int32 rfl rfl 2 (27/10)
      (by norm_num [nbFloat]) (by norm_num [ratTrunc, Dtype.lo])
      (by norm_num [ratTrunc, Dtype.hi])).1

/-- A backing buffer: a flat list of element values. -/
abbrev Buffer := List ℚ

/-- Modelled from the spec: the store of backing buffers.  Buffer ids index
into the store; tensors that own or borrow a buffer all go through it, which
makes aliasing and mutation explicit. -/
structure Heap where
  bufs : List Buffer
  deriving DecidableEq, Repr

/-- Replace the element at a position of a list (out of range: unchanged). -/
def setNth {α : Type} (x : α) : Nat → List α → List α
  | _, [] => []
  | 0, _ :: l => x :: l
  | n + 1, a :: l => a :: setNth x n l

/-- Apply a function at a position of a list (out of range: unchanged). -/
def modifyNth' {α : Type} (f : α → α) : Nat → List α → List α
  | _, [] => []
  | 0, a :: l => f a :: l
  | n + 1, a :: l => a :: modifyNth' f n l

theorem setNth_get?_same {α : Type} (x : α) :
    ∀ (n : Nat) (l : List α), n < l.length → (setNth x n l).get? n = some x
  | _, [], h => by simp at h
  | 0, a :: l, _ => rfl
  | n + 1, a :: l, h => by
    simpa [setNth] using setNth_get?_same x n l (by simpa using h)

theorem setNth_get?_ne {α : Type} (x : α) :
    ∀ (n m : Nat) (l : List α), n ≠ m → (setNth x n l).get? m = l.get? m
  | _, _, [], _ => by simp [setNth]
  | 0, 0, a :: l, h => absurd rfl h
  | 0, m + 1, a :: l, _ => rfl
  | n + 1, 0, a :: l, _ => rfl
  | n + 1, m + 1, a :: l, h => by
    simpa [setNth] using setNth_get?_ne x n m l (fun hc => h (by simp [hc]))

theorem modifyNth'_get?_same {α : Type} (f : α → α) :
    ∀ (n : Nat) (l : List α), (modifyNth' f n l).get? n = (l.get? n).map f
  | _, [] => by simp [modifyNth']
  | 0, a :: l => rfl
  | n + 1, a :: l => by
    simpa [modifyNth'] using modifyNth'_get?_same f n l

theorem modifyNth'_get?_ne {α : Type} (f : α → α) :
    ∀ (n m : Nat) (l : List α), n ≠ m → (modifyNth' f n l).get? m = l.get? m
  | _, _, [], _ => by simp [modifyNth']
  | 0, 0, a :: l, h => absurd rfl h
  | 0, m + 1, a :: l, _ => rfl
  | n + 1, 0, a :: l, _ => rfl
  | n + 1, m + 1, a :: l, h => by
    simpa [modifyNth'] using modifyNth'_get?_ne f n m l (fun hc => h (by simp [hc]))

/-- Read one element of a buffer in the store. -/
def Heap.read (h : Heap) (b addr : Nat) : Option ℚ :=
  match h.bufs.get? b with
  | some buf => buf.get? addr
  | none => none

/-- Overwrite one element of a buffer in the store. -/
def Heap.write (h : Heap) (b addr : Nat) (x : ℚ) : Heap :=
  ⟨modifyNth' (setNth x addr) b h.bufs⟩

theorem Heap.read_write_same (h : Heap) (b addr : Nat) (x : ℚ)
    (hb : b < h.bufs.length)
    (ha : addr < ((h.bufs.get? b).getD []).length) :
    (h.write b addr x).read b addr = some x := by
  unfold Heap.read Heap.write
  rw [modifyNth'_get?_same]
  cases hg : h.bufs.get? b with
  | none =>
    rw [List.get?_eq_none] at hg
    omega
  | some buf =>
    simp only [hg, Option.map_some']
    have hg2 : h.bufs[b]? = some buf := by simpa [← List.get?_eq_getElem?] using hg
    exact setNth_get?_same x addr buf (by simpa [hg2] using ha)

theorem Heap.read_write_ne_buf (h : Heap) (b b' addr addr' : Nat) (x : ℚ)
    (hne : b ≠ b') : (h.write b addr x).read b' addr' = h.read b' addr' := by
  unfold Heap.read Heap.write
  rw [modifyNth'_get?_ne _ _ _ _ hne]

/-- Modelled from the spec: a tensor header over the store — a buffer id,
an element offset, shape, per-dimension element strides, dtype, device and
an ownership flag (owned buffer vs borrowed/view). -/
structure Tensor where
  bufId : Nat
  offset : Nat
  shape : List Nat
  strides : List Nat
  dtype : Dtype
  device : Device
  owned : Bool
  deriving DecidableEq, Repr

/-- Inner product of a multi-index with a stride vector. -/
def dot : List Nat → List Nat → Nat
  | i :: is, s :: ss => i * s + dot is ss
  | _, _ => 0

/-- The flat buffer address of a multi-index. -/
def Tensor.flatAddr (t : Tensor) (ix : List Nat) : Nat := t.offset + dot ix t.strides

/-- Read the tensor element at a multi-index. -/
def Tensor.read (h : Heap) (t : Tensor) (ix : List Nat) : Option ℚ :=
  h.read t.bufId (t.flatAddr ix)

/-- Write the tensor element at a multi-index (item assignment: writes into
the backing buffer in place). -/
def Tensor.write (h : Heap) (t : Tensor) (ix : List Nat) (x : ℚ) : Heap :=
  h.write t.bufId (t.flatAddr ix) x

/-- A multi-index is within a shape. -/
def validIx : List Nat → List Nat → Prop
  | [], [] => True
  | i :: is, n :: ns => i < n ∧ validIx is ns
  | _, _ => False

/-- Canonical row-major strides for a shape. -/
def rowMajorStrides : List Nat → List Nat
  | [] => []
  | _ :: ns => ns.prod :: rowMajorStrides ns

/-- All multi-indices of a shape, in row-major order. -/
def enumIndices : List Nat → List (List Nat)
  | [] => [[]]
  | n :: ns => ((List.range n).map (fun i => (enumIndices ns).map (fun ix => i :: ix))).join

theorem enumIndices_length : ∀ shape : List Nat, (enumIndices shape).length = shape.prod
  | [] => rfl
  | n :: ns => by
    simp [enumIndices, List.length_join, Function.comp_def, enumIndices_length ns,
      List.prod_cons, Nat.mul_comm]

theorem dot_rowMajor_lt : ∀ (shape ix : List Nat), validIx ix shape →
    dot ix (rowMajorStrides shape) < shape.prod
  | [], [], _ => by simp [dot, rowMajorStrides]
  | n :: ns, i :: is, h => by
    obtain ⟨hi, his⟩ := h
    have ih := dot_rowMajor_lt ns is his
    simp only [dot, rowMajorStrides, List.prod_cons]
    calc i * ns.prod + dot is (rowMajorStrides ns)
        < i * ns.prod + ns.prod := by omega
      _ = (i + 1) * ns.prod := by ring
      _ ≤ n * ns.prod := Nat.mul_le_mul_right _ (by omega)

/-- Element lookup in the concatenation of the blocks of a list of lists. -/
theorem join_get? {α : Type} : ∀ (L : List (List α)) (m j : Nat) (l : List α),
    L.get? m = some l → j < l.length →
    L.join.get? (((L.take m).map List.length).sum + j) = l.get? j
  | [], m, _, _, h, _ => by simp at h
  | l₀ :: L, 0, j, l, h, hj => by
    simp at h
    subst h
    simpa using List.get?_append hj
  | l₀ :: L, m + 1, j, l, h, hj => by
    simp only [List.get?] at h
    have ih := join_get? L m j l h hj
    have harith : ((((l₀ :: L).take (m + 1)).map List.length).sum + j)
        = l₀.length + (((L.take m).map List.length).sum + j) := by
      simp [Nat.add_assoc]
    rw [harith]
    have hjoin : (l₀ :: L).join = l₀ ++ L.join := by simp
    rw [hjoin, List.get?_append_right (by omega)]
    simpa using ih

theorem enumIndices_get? : ∀ (shape ix : List Nat), validIx ix shape →
    (enumIndices shape).get? (dot ix (rowMajorStrides shape)) = some ix
  | [], [], _ => rfl
  | n :: ns, i :: is, h => by
    obtain ⟨hi, his⟩ := h
    have ih := enumIndices_get? ns is his
    have hlt := dot_rowMajor_lt ns is his
    simp only [enumIndices, dot, rowMajorStrides]
    have hblock : ((List.range n).map (fun i => (enumIndices ns).map (fun ix => i :: ix))).get? i
        = some ((enumIndices ns).map (fun ix => i :: ix)) := by
      rw [List.get?_map, List.get?_range hi]
      rfl
    have hsum : ((((List.range n).map (fun i => (enumIndices ns).map (fun ix => i :: ix))).take i).map
        List.length).sum = i * ns.prod := by
      rw [← List.map_take, List.map_map]
      have hconst : ∀ j ∈ (List.range n).take i,
          (List.length ∘ fun i => (enumIndices ns).map (fun ix => i :: ix)) j = ns.prod := by
        intro j _
        simp [Function.comp_def, enumIndices_length]
      rw [List.map_congr_left hconst]
      have hlen : ((List.range n).take i).length = i := by
        simp [List.length_take]
        omega
      rw [List.map_const', hlen]
      simp [Nat.mul_comm]
    have := join_get? _ i (dot is (rowMajorStrides ns)) _ hblock
      (by simpa [enumIndices_length] using hlt)
    rw [hsum] at this
    rw [this, List.get?_map, ih]
    rfl

/-- Materialize a tensor's elements in row-major order by reading through
its strides (out-of-store reads default to 0; the theorems below only use
in-bounds configurations). -/
def Tensor.materialize (h : Heap) (t : Tensor) : Buffer :=
  (enumIndices t.shape).map (fun ix => (t.read h ix).getD 0)

/-- Modelled from the spec: device transfer (`to_device`, and the notebook's
`Tensor.cuda` / `Tensor.cpu` convenience forms), whose implementation is
absent from the source.  The spec requires copy-equivalent semantics even for
a same-device target ("mutating the result never affects the source"), so
the model always allocates a fresh owned contiguous buffer. -/
def Tensor.to_device (h : Heap) (t : Tensor) (d : Device) : Heap × Tensor :=
  (⟨h.bufs ++ [t.materialize h]⟩,
   { bufId := h.bufs.length
     offset := 0
     shape := t.shape
     strides := rowMajorStrides t.shape
     dtype := t.dtype
     device := d
     owned := true })

/-- The notebook's `Tensor.cuda(ordinal)`. -/
def Tensor.cuda (h : Heap) (t : Tensor) (ordinal : Nat) : Heap × Tensor :=
  t.to_device h (Device.cuda ordinal)

/-- The notebook's `Tensor.cpu()`. -/
def Tensor.cpu (h : Heap) (t : Tensor) : Heap × Tensor :=
  t.to_device h (Device.cpu 0)

theorem to_device_fresh_read (h : Heap) (t : Tensor) (d : Device) (ix : List Nat)
    (hix : validIx ix t.shape) :
    (t.to_device h d).2.read (t.to_device h d).1 ix = some ((t.read h ix).getD 0) := by
  unfold Tensor.to_device Tensor.read Tensor.flatAddr Heap.read
  simp only
  rw [List.get?_append_right (le_refl _)]
  simp only [Nat.sub_self]
  show (t.materialize h).get? (0 + dot ix (rowMajorStrides t.shape)) = _
  unfold Tensor.materialize
  rw [List.get?_map, Nat.zero_add, enumIndices_get? t.shape ix hix]
  rfl

theorem to_device_preserves_source (h : Heap) (t : Tensor) (d : Device)
    (hbuf : t.bufId < h.bufs.length) (ix : List Nat) :
    t.read (t.to_device h d).1 ix = t.read h ix := by
  unfold Tensor.to_device Tensor.read Heap.read
  simp only
  rw [List.get?_append (by simpa using hbuf)]

/-- C2: for every tensor, a device transfer whose target device equals the
tensor's current device returns an equivalent tensor (same dtype, shape and
device, and the same element value at every valid multi-index) backed by a
fresh buffer, with copy-equivalent semantics: mutating any element of the
result is never observable on the source tensor. -/
theorem c2_same_device_transfer_copy (h : Heap) (t : Tensor) (d : Device)
    (hd : d = t.device) (hbuf : t.bufId < h.bufs.length) :
    (t.to_device h d).2.bufId ≠ t.bufId ∧
    (t.to_device h d).2.device = t.device ∧
    (t.to_device h d).2.dtype = t.dtype ∧
    (t.to_device h d).2.shape = t.shape ∧
    (∀ ix, validIx ix t.shape →
      (t.to_device h d).2.read (t.to_device h d).1 ix = some ((t.read h ix).getD 0)) ∧
    (∀ ix' x ix,
      t.read (Tensor.write (t.to_device h d).1 (t.to_device h d).2 ix' x) ix
        = t.read h ix) := by
  refine ⟨by simp [Tensor.to_device]; omega, hd ▸ rfl, rfl, rfl,
    fun ix hix => to_device_fresh_read h t d ix hix, fun ix' x ix => ?_⟩
  have hne : (t.to_device h d).2.bufId ≠ t.bufId := by
    simp [Tensor.to_device]
    omega
  unfold Tensor.write Tensor.read
  rw [Heap.read_write_ne_buf _ _ _ _ _ _ hne]
  exact to_device_preserves_source h t d hbuf ix

/-- A one-buffer store holding `[0, 1, 2]` (the notebook's transfer cell). -/
def exHeap : Heap := ⟨[[0, 1, 2]]⟩

/-- A CUDA-resident tensor over `exHeap`, the notebook's `a_gpu_0`. -/
def exGpu : Tensor :=
  { bufId := 0, offset := 0, shape := [3], strides := [1], dtype := Dtype.int64,
    device := Device.cuda 0, owned := true }

/-- C2 witness: the same-device transfer claim instantiated at the
notebook's `a_gpu_0.cuda(0)` configuration. -/
theorem c2_same_device_transfer_copy_witness :
    (exGpu.to_device exHeap (Device.cuda 0)).2.bufId ≠ exGpu.bufId ∧
    (exGpu.to_device exHeap (Device.cuda 0)).2.device = exGpu.device ∧
    (exGpu.to_device exHeap (Device.cuda 0)).2.dtype = exGpu.dtype ∧
    (exGpu.to_device exHeap (Device.cuda 0)).2.shape = exGpu.shape ∧
    (∀ ix, validIx ix exGpu.shape →
      (exGpu.to_device exHeap (Device.cuda 0)).2.read (exGpu.to_device exHeap (Device.cuda 0)).1 ix
        = some ((exGpu.read exHeap ix).getD 0)) ∧
    (∀ ix' x ix,
      exGpu.read (Tensor.write (exGpu.to_device exHeap (Device.cuda 0)).1
        (exGpu.to_device exHeap (Device.cuda 0)).2 ix' x) ix = exGpu.read exHeap ix) :=
  c2_same_device_transfer_copy exHeap exGpu (Device.cuda 0) rfl (by decide)

/-- Modelled from the spec: the zero-copy interchange capsule (the DLPack
descriptor): buffer id, offset, shape, strides, dtype and device, with no
element data of its own. -/
structure Capsule where
  bufId : Nat
  offset : Nat
  shape : List Nat
  strides : List Nat
  dtype : Dtype
  device : Device
  deriving DecidableEq, Repr

/-- Modelled from the spec: `to_dlpack` exports a tensor's buffer
description without copying. -/
def Tensor.to_dlpack (t : Tensor) : Capsule :=
  { bufId := t.bufId, offset := t.offset, shape := t.shape, strides := t.strides,
    dtype := t.dtype, device := t.device }

/-- Modelled from the spec: `from_dlpack` wraps a capsule's buffer as a
borrowed (non-owned) tensor without copying. -/
def from_dlpack (c : Capsule) : Tensor :=
  { bufId := c.bufId, offset := c.offset, shape := c.shape, strides := c.strides,
    dtype := c.dtype, device := c.device, owned := false }

/-- C5: exporting a tensor through the zero-copy capsule and importing it
back yields a tensor over the very same buffer (no copy is made), and a
mutation written through either side is immediately visible when reading
through the other side. -/
theorem c5_dlpack_zero_copy (t : Tensor) (h : Heap) (ix : List Nat) (x : ℚ)
    (hb : t.bufId < h.bufs.length)
    (ha : t.flatAddr ix < ((h.bufs.get? t.bufId).getD []).length) :
    (from_dlpack t.to_dlpack).bufId = t.bufId ∧
    (from_dlpack t.to_dlpack).read (t.write h ix x) ix = some x ∧
    t.read (Tensor.write h (from_dlpack t.to_dlpack) ix x) ix = some x := by
  refine ⟨rfl, ?_, ?_⟩
  · show Heap.read _ _ _ = some x
    have : (from_dlpack t.to_dlpack).flatAddr ix = t.flatAddr ix := rfl
    rw [this]
    exact Heap.read_write_same h t.bufId (t.flatAddr ix) x hb ha
  · show Heap.read _ _ _ = some x
    exact Heap.read_write_same h t.bufId (t.flatAddr ix) x hb ha

/-- The notebook's five-element CUDA tensor exchanged with PyTorch via
DLPack (`o3_a`/`th_a`). -/
def exDl : Tensor :=
  { bufId := 0, offset := 0, shape := [5], strides := [1], dtype := Dtype.float32,
    device := Device.cuda 0, owned := false }

/-- C5 witness: the zero-copy aliasing claim at the notebook's five-element
CUDA tensor, writing 200 at position 1 (the notebook's `o3_a[1] = 200`). -/
theorem c5_dlpack_zero_copy_witness :
    (from_dlpack exDl.to_dlpack).bufId = exDl.bufId ∧
    (from_dlpack exDl.to_dlpack).read (exDl.write ⟨[[1, 1, 1, 1, 1]]⟩ [1] 200) [1] = some 200 ∧
    exDl.read (Tensor.write ⟨[[1, 1, 1, 1, 1]]⟩ (from_dlpack exDl.to_dlpack) [1] 200) [1]
      = some 200 :=
  c5_dlpack_zero_copy exDl ⟨[[1, 1, 1, 1, 1]]⟩ [1] 200 (by decide) (by decide)

/-- One per-dimension item of an indexing expression as written in the
source: an integer index (possibly negative, counting from the end) or a
python slice with optional start/stop endpoints and a positive step. -/
inductive RawSpec where
  | idx (i : Int)
  | slice (start stop : Option Int) (step : Nat)
  deriving DecidableEq, Repr

/-- A normalized per-dimension spec: first selected source coordinate,
number of selected coordinates, step between them, and whether the
dimension is kept in the result (slices keep, integer indexing drops). -/
structure DimSpec where
  start : Nat
  len : Nat
  step : Nat
  keep : Bool
  deriving DecidableEq, Repr

/-- Clamp a possibly-negative python slice endpoint into [0, n]
(python-slice semantics: negative endpoints count from the end,
out-of-range endpoints are clamped, not erroring). -/
def clampIdx (n : Nat) (i : Int) : Nat :=
  if i < 0 then (if i + n < 0 then 0 else (i + n).toNat) else min i.toNat n

/-- Modelled from the spec: normalization of one indexing item against the
dimension size, with python-slice semantics (negative indices count from
the end, stop exclusive, default step 1, endpoints clamped). -/
def normalizeSpec (n : Nat) : RawSpec → DimSpec
  | RawSpec.idx i =>
    { start := if i < 0 then (i + n).toNat else i.toNat, len := 1, step := 1, keep := false }
  | RawSpec.slice s e st =>
    let st1 := max st 1
    let lo := match s with | none => 0 | some v => clampIdx n v
    let hi := match e with | none => n | some v => clampIdx n v
    { start := lo
      len := if lo < hi then (hi - lo + st1 - 1) / st1 else 0
      step := st1
      keep := true }

/-- The kept dimensions of a view: (length, recomputed stride) per slice. -/
def viewDims : List DimSpec → List Nat → List (Nat × Nat)
  | s :: ss, st :: sts =>
    if s.keep then (s.len, s.step * st) :: viewDims ss sts else viewDims ss sts
  | _, _ => []

/-- The element offset contributed by the start coordinates of the specs. -/
def startOffset : List DimSpec → List Nat → Nat
  | s :: ss, st :: sts => s.start * st + startOffset ss sts
  | _, _ => 0

/-- An indexing expression shorter than the rank leaves the trailing
dimensions whole (python semantics). -/
def padSpecs (t : Tensor) (rs : List RawSpec) : List RawSpec :=
  rs ++ List.replicate (t.shape.length - rs.length) (RawSpec.slice none none 1)

/-- Modelled from the spec: `__getitem__` — indexing/slicing with static
bounds always returns a view: same buffer, offset advanced by the start
coordinates, shape and strides recomputed from the kept dimensions; no
element is copied. -/
def Tensor.getitem (t : Tensor) (rs : List RawSpec) : Tensor :=
  let specs := List.zipWith normalizeSpec t.shape (padSpecs t rs)
  { bufId := t.bufId
    offset := t.offset + startOffset specs t.strides
    shape := (viewDims specs t.strides).map Prod.fst
    strides := (viewDims specs t.strides).map Prod.snd
    dtype := t.dtype
    device := t.device
    owned := false }

/-- Map a multi-index of the view back to the source coordinates it
selects. -/
def expandIndex : List DimSpec → List Nat → List Nat
  | [], _ => []
  | s :: ss, ix =>
    if s.keep then
      match ix with
      | i :: rest => (s.start + s.step * i) :: expandIndex ss rest
      | [] => s.start :: expandIndex ss []
    else s.start :: expandIndex ss ix

theorem dot_nil_right : ∀ ix : List Nat, dot ix [] = 0 := by
  intro ix
  cases ix <;> rfl

theorem dot_expand : ∀ (specs : List DimSpec) (strides ix : List Nat),
    dot (expandIndex specs ix) strides
      = startOffset specs strides + dot ix ((viewDims specs strides).map Prod.snd)
  | [], strides, ix => by
    cases strides <;> cases ix <;> simp [expandIndex, startOffset, viewDims, dot]
  | s :: ss, [], ix => by
    by_cases hk : s.keep <;> cases ix <;>
      simp [expandIndex, startOffset, viewDims, hk, dot_nil_right]
  | s :: ss, st :: sts, ix => by
    by_cases hk : s.keep
    · cases ix with
      | nil =>
        simp [expandIndex, hk, startOffset, viewDims, dot, dot_expand ss sts []]
      | cons i rest =>
        have ih := dot_expand ss sts rest
        simp only [expandIndex, hk, if_true, startOffset, viewDims, dot, List.map_cons, ih]
        ring
    · have ih := dot_expand ss sts ix
      simp only [expandIndex, hk, if_false, Bool.false_eq_true, startOffset, viewDims, dot, ih]
      ring

theorem getitem_flatAddr (t : Tensor) (rs : List RawSpec) (ix : List Nat) :
    (t.getitem rs).flatAddr ix
      = t.flatAddr (expandIndex (List.zipWith normalizeSpec t.shape (padSpecs t rs)) ix) := by
  unfold Tensor.getitem Tensor.flatAddr
  simp only
  rw [dot_expand]
  ring

/-- C4: indexing/slicing with static bounds returns a view sharing the
source's buffer (never a copy): the view reads exactly the source's
elements at the mapped coordinates in any heap, an in-place assignment
through the view is the very same store mutation as writing the source at
the mapped coordinates, and after such an assignment the written value is
observable by reading the original tensor. -/
theorem c4_getitem_view_and_write_through (h : Heap) (t : Tensor) (rs : List RawSpec)
    (ix : List Nat) (x : ℚ)
    (hb : t.bufId < h.bufs.length)
    (ha : (t.getitem rs).flatAddr ix < ((h.bufs.get? t.bufId).getD []).length) :
    (t.getitem rs).bufId = t.bufId ∧
    (∀ h' : Heap, (t.getitem rs).read h' ix
      = t.read h' (expandIndex (List.zipWith normalizeSpec t.shape (padSpecs t rs)) ix)) ∧
    (t.getitem rs).write h ix x
      = Tensor.write h t (expandIndex (List.zipWith normalizeSpec t.shape (padSpecs t rs)) ix) x ∧
    t.read ((t.getitem rs).write h ix x)
      (expandIndex (List.zipWith normalizeSpec t.shape (padSpecs t rs)) ix) = some x := by
  have haddr := getitem_flatAddr t rs ix
  refine ⟨rfl, ?_, ?_, ?_⟩
  · intro h'
    unfold Tensor.read
    rw [haddr]
    rfl
  · unfold Tensor.write
    rw [haddr]
    rfl
  · unfold Tensor.write Tensor.read
    rw [haddr]
    exact Heap.read_write_same h t.bufId _ x hb (haddr ▸ ha)

/-- The notebook's 24-element row-major buffer `np.array(range(24))`. -/
def nb24Heap : Heap := ⟨[(List.range 24).map (fun n => (n : ℚ))]⟩

/-- The notebook's tensor `a` of shape {2, 3, 4} over `nb24Heap`. -/
def nb24 : Tensor :=
  { bufId := 0, offset := 0, shape := [2, 3, 4], strides := [12, 4, 1],
    dtype := Dtype.int64, device := Device.cpu 0, owned := true }

/-- The model reproduces the notebook's recorded shapes, strides and
offsets for all four recorded indexing examples (`a[1, 2]`, `a[1:]`,
`a[:, 0:3:2, :]`, `a[:-1, 0:3:2, 2]`). -/
theorem getitem_matches_notebook_output :
    ((nb24.getitem [RawSpec.idx 1, RawSpec.idx 2]).shape = [4] ∧
      (nb24.getitem [RawSpec.idx 1, RawSpec.idx 2]).strides = [1] ∧
      (nb24.getitem [RawSpec.idx 1, RawSpec.idx 2]).offset = 20) ∧
    ((nb24.getitem [RawSpec.slice (some 1) none 1]).shape = [1, 3, 4] ∧
      (nb24.getitem [RawSpec.slice (some 1) none 1]).strides = [12, 4, 1] ∧
      (nb24.getitem [RawSpec.slice (some 1) none 1]).offset = 12) ∧
    ((nb24.getitem [RawSpec.slice none none 1, RawSpec.slice (some 0) (some 3) 2,
        RawSpec.slice none none 1]).shape = [2, 2, 4] ∧
      (nb24.getitem [RawSpec.slice none none 1, RawSpec.slice (some 0) (some 3) 2,
        RawSpec.slice none none 1]).strides = [12, 8, 1] ∧
      (nb24.getitem [RawSpec.slice none none 1, RawSpec.slice (some 0) (some 3) 2,
        RawSpec.slice none none 1]).offset = 0) ∧
    ((nb24.getitem [RawSpec.slice none (some (-1)) 1, RawSpec.slice (some 0) (some 3) 2,
        RawSpec.idx 2]).shape = [1, 2] ∧
      (nb24.getitem [RawSpec.slice none (some (-1)) 1, RawSpec.slice (some 0) (some 3) 2,
        RawSpec.idx 2]).strides = [12, 8] ∧
      (nb24.getitem [RawSpec.slice none (some (-1)) 1, RawSpec.slice (some 0) (some 3) 2,
        RawSpec.idx 2]).offset = 2) := by
  decide

/-- C4 witness: the view/write-through claim at the spec's own test vector
`a[1:][0] = 99` configuration (slicing `a[1:]`, then writing 99 through the
view at view-index [0, 2, 3], observable at source index [1, 2, 3]). -/
theorem c4_getitem_view_and_write_through_witness :
    (nb24.getitem [RawSpec.slice (some 1) none 1]).bufId = nb24.bufId ∧
    (∀ h' : Heap, (nb24.getitem [RawSpec.slice (some 1) none 1]).read h' [0, 2, 3]
      = nb24.read h' (expandIndex (List.zipWith normalizeSpec nb24.shape
          (padSpecs nb24 [RawSpec.slice (some 1) none 1])) [0, 2, 3])) ∧
    (nb24.getitem [RawSpec.slice (some 1) none 1]).write nb24Heap [0, 2, 3] 99
      = Tensor.write nb24Heap nb24 (expandIndex (List.zipWith normalizeSpec nb24.shape
          (padSpecs nb24 [RawSpec.slice (some 1) none 1])) [0, 2, 3]) 99 ∧
    nb24.read ((nb24.getitem [RawSpec.slice (some 1) none 1]).write nb24Heap [0, 2, 3] 99)
      (expandIndex (List.zipWith normalizeSpec nb24.shape
          (padSpecs nb24 [RawSpec.slice (some 1) none 1])) [0, 2, 3]) = some 99 :=
  c4_getitem_view_and_write_through nb24Heap nb24 [RawSpec.slice (some 1) none 1]
    [0, 2, 3] 99 (by decide) (by decide)

/-- A reference or query point: its coordinates. -/
abbrev Point := List ℚ

/-- Squared Euclidean distance between two points.  Distances throughout
the search module are reported in the squared convention (order-isomorphic
to Euclidean distance and exactly representable: d = 0 iff d2 = 0, d ≤ r
iff d2 ≤ r^2 for r ≥ 0, and ascending order is preserved), matching the
spec's squared-distance comparison step. -/
def dist2 (p q : Point) : ℚ := (List.zipWith (fun a b => (a - b) ^ 2) p q).sum

/-- Modelled from the spec: the mode state machine of the search module —
unbuilt, or ready for exactly one of the three search modes (the
radius-bearing builds record their build-time radius). -/
inductive NNSMode where
  | unbuilt
  | knnReady
  | radiusReady (radius : ℚ)
  | hybridReady (radius : ℚ)
  deriving DecidableEq, Repr

/-- Modelled from the spec: the `NearestNeighborSearch` module — an
immutable reference point set plus the current mode state. -/
structure NearestNeighborSearch where
  points : List Point
  mode : NNSMode
  deriving DecidableEq, Repr

/-- Construction from a reference tensor: no mode is built yet. -/
def NearestNeighborSearch.init (pts : List Point) : NearestNeighborSearch :=
  { points := pts, mode := NNSMode.unbuilt }

/-- `knn_index()`: build the knn structure. -/
def NearestNeighborSearch.knn_index (s : NearestNeighborSearch) : NearestNeighborSearch :=
  { points := s.points, mode := NNSMode.knnReady }

/-- `fixed_radius_index(radius)`: build the fixed-radius structure. -/
def NearestNeighborSearch.fixed_radius_index (s : NearestNeighborSearch) (r : ℚ) :
    NearestNeighborSearch :=
  { points := s.points, mode := NNSMode.radiusReady r }

/-- `hybrid_index(radius)`: build the hybrid structure. -/
def NearestNeighborSearch.hybrid_index (s : NearestNeighborSearch) (r : ℚ) :
    NearestNeighborSearch :=
  { points := s.points, mode := NNSMode.hybridReady r }

/-- The neighbor ordering: by distance, ties broken by smaller index. -/
def nnLe (a b : Nat × ℚ) : Prop := a.2 < b.2 ∨ (a.2 = b.2 ∧ a.1 ≤ b.1)

instance : DecidableRel nnLe := fun a b => by
  unfold nnLe
  infer_instance

instance : IsTotal (Nat × ℚ) nnLe := by
  constructor
  intro a b
  rcases lt_trichotomy a.2 b.2 with h | h | h
  · exact Or.inl (Or.inl h)
  · rcases Nat.le_total a.1 b.1 with h' | h'
    · exact Or.inl (Or.inr ⟨h, h'⟩)
    · exact Or.inr (Or.inr ⟨h.symm, h'⟩)
  · exact Or.inr (Or.inl h)

instance : IsTrans (Nat × ℚ) nnLe := by
  constructor
  intro a b c hab hbc
  rcases hab with h | ⟨he, hi⟩
  · rcases hbc with h' | ⟨he', _⟩
    · exact Or.inl (h.trans h')
    · exact Or.inl (he' ▸ h)
  · rcases hbc with h' | ⟨he', hi'⟩
    · exact Or.inl (he ▸ h')
    · exact Or.inr ⟨he.trans he', hi.trans hi'⟩

/-- All reference indices paired with their squared distance to the query,
sorted ascending by distance (ties by index). -/
def rankedNeighbors (pts : List Point) (q : Point) : List (Nat × ℚ) :=
  List.insertionSort nnLe (pts.map (fun p => dist2 q p)).enum

/-- One knn result row: the k nearest (index, distance) pairs, padded with
the sentinel (-1, ⊤) when fewer than k reference points exist. -/
def knnRow (pts : List Point) (q : Point) (k : Nat) : List Int × List (WithTop ℚ) :=
  let sel := (rankedNeighbors pts q).take k
  (sel.map (fun p => (p.1 : Int)) ++ List.replicate (k - sel.length) (-1),
   sel.map (fun p => ((p.2 : ℚ) : WithTop ℚ)) ++ List.replicate (k - sel.length) ⊤)

/-- Modelled from the spec: `knn_search(query, knn)` — requires the knn
build; per query row returns the k nearest reference indices ordered by
ascending distance and their distances. -/
def NearestNeighborSearch.knn_search (s : NearestNeighborSearch) (query : List Point)
    (k : Nat) : Except Err (List (List Int) × List (List (WithTop ℚ))) :=
  match s.mode with
  | NNSMode.knnReady =>
    .ok (query.map (fun q => (knnRow s.points q k).1),
         query.map (fun q => (knnRow s.points q k).2))
  | _ => .error Err.invalidArgument

/-- One fixed-radius result row: all (index, squared distance) pairs within
the radius, ascending by distance. -/
def radiusRow (pts : List Point) (q : Point) (r : ℚ) : List (Nat × ℚ) :=
  (rankedNeighbors pts q).filter (fun p => decide (p.2 ≤ r ^ 2))

/-- Offsets of the ragged per-query segments: length M+1, starting at 0,
ending at the total length. -/
def scanSplits : List Nat → List Nat
  | [] => [0]
  | n :: ns => 0 :: (scanSplits ns).map (fun m => n + m)

/-- Modelled from the spec: `fixed_radius_search(query, radius)` — requires
the fixed-radius build; returns the flat concatenation of per-query
neighbor indices and distances plus the neighbor_splits offset tensor. -/
def NearestNeighborSearch.fixed_radius_search (s : NearestNeighborSearch)
    (query : List Point) (r : ℚ) : Except Err (List Int × List ℚ × List Nat) :=
  match s.mode with
  | NNSMode.radiusReady _ =>
    let per := query.map (fun q => radiusRow s.points q r)
    .ok ((per.map (fun l => l.map (fun p => (p.1 : Int)))).join,
         (per.map (fun l => l.map Prod.snd)).join,
         scanSplits (per.map List.length))
  | _ => .error Err.invalidArgument

/-- One hybrid result row: up to maxKnn in-radius neighbors ascending by
distance, sentinel-padded, plus the un-padded count. -/
def hybridRow (pts : List Point) (q : Point) (r : ℚ) (maxKnn : Nat) :
    List Int × List (WithTop ℚ) × Nat :=
  let sel := (radiusRow pts q r).take maxKnn
  (sel.map (fun p => (p.1 : Int)) ++ List.replicate (maxKnn - sel.length) (-1),
   sel.map (fun p => ((p.2 : ℚ) : WithTop ℚ)) ++ List.replicate (maxKnn - sel.length) ⊤,
   sel.length)

/-- Modelled from the spec: `hybrid_search(query, radius, max_knn)` —
requires the hybrid build; the radius used to select neighbors is the
query-time argument (the notebook builds with radius 0.1 and searches with
radius 0.3). -/
def NearestNeighborSearch.hybrid_search (s : NearestNeighborSearch) (query : List Point)
    (r : ℚ) (maxKnn : Nat) :
    Except Err (List (List Int) × List (List (WithTop ℚ)) × List Nat) :=
  match s.mode with
  | NNSMode.hybridReady _ =>
    .ok (query.map (fun q => (hybridRow s.points q r maxKnn).1),
         query.map (fun q => (hybridRow s.points q r maxKnn).2.1),
         query.map (fun q => (hybridRow s.points q r maxKnn).2.2))
  | _ => .error Err.invalidArgument

/-- C3: calling any search method whose matching mode-specific build has
not been performed fails with InvalidArgument (never a result, never a
silent no-op). -/
theorem c3_search_requires_matching_build (s : NearestNeighborSearch)
    (query : List Point) (k maxKnn : Nat) (r r' : ℚ) :
    (s.mode ≠ NNSMode.knnReady →
      s.knn_search query k = .error Err.invalidArgument) ∧
    ((∀ r0, s.mode ≠ NNSMode.radiusReady r0) →
      s.fixed_radius_search query r = .error Err.invalidArgument) ∧
    ((∀ r0, s.mode ≠ NNSMode.hybridReady r0) →
      s.hybrid_search query r' maxKnn = .error Err.invalidArgument) := by
  refine ⟨?_, ?_, ?_⟩ <;> intro h <;>
    cases hm : s.mode <;>
    simp_all [NearestNeighborSearch.knn_search, NearestNeighborSearch.fixed_radius_search,
      NearestNeighborSearch.hybrid_search]

/-- C3 witness: all three searches on an unbuilt instance report
InvalidArgument. -/
theorem c3_search_requires_matching_build_witness :
    (NearestNeighborSearch.init [[(0 : ℚ), 0, 0]]).knn_search [[1, 2, 3]] 10
      = .error Err.invalidArgument ∧
    (NearestNeighborSearch.init [[(0 : ℚ), 0, 0]]).fixed_radius_search [[1, 2, 3]] (1/10)
      = .error Err.invalidArgument ∧
    (NearestNeighborSearch.init [[(0 : ℚ), 0, 0]]).hybrid_search [[1, 2, 3]] (3/10) 10
      = .error Err.invalidArgument := by
  obtain ⟨h1, h2, h3⟩ := c3_search_requires_matching_build
    (NearestNeighborSearch.init [[(0 : ℚ), 0, 0]]) [[1, 2, 3]] 10 10 (1/10) (3/10)
  exact ⟨h1 (fun h => by cases h), h2 (fun r0 h => by cases h), h3 (fun r0 h => by cases h)⟩

theorem rankedNeighbors_sorted (pts : List Point) (q : Point) :
    List.Sorted nnLe (rankedNeighbors pts q) :=
  List.sorted_insertionSort nnLe _

theorem rankedNeighbors_perm (pts : List Point) (q : Point) :
    (rankedNeighbors pts q).Perm (pts.map (fun p => dist2 q p)).enum :=
  List.perm_insertionSort nnLe _

theorem rankedNeighbors_length (pts : List Point) (q : Point) :
    (rankedNeighbors pts q).length = pts.length := by
  rw [(rankedNeighbors_perm pts q).length_eq]
  simp

theorem mem_rankedNeighbors_iff (pts : List Point) (q : Point) (i : Nat) (d : ℚ) :
    (i, d) ∈ rankedNeighbors pts q ↔ ∃ p, pts.get? i = some p ∧ d = dist2 q p := by
  rw [(rankedNeighbors_perm pts q).mem_iff, List.mk_mem_enum_iff_getElem?]
  simp only [List.getElem?_map, List.get?_eq_getElem?]
  constructor
  · intro h
    cases hp : pts[i]? with
    | none => rw [hp] at h; cases h
    | some p =>
      rw [hp] at h
      exact ⟨p, rfl, by simpa using h.symm⟩
  · rintro ⟨p, hp, rfl⟩
    rw [hp]
    rfl

theorem nnLe_le_snd {a b : Nat × ℚ} (h : nnLe a b) : a.2 ≤ b.2 := by
  rcases h with h | ⟨h, _⟩
  · exact h.le
  · exact h.le

theorem sorted_cast_pad (sel : List (Nat × ℚ)) (n : Nat)
    (hs : List.Sorted nnLe sel) :
    List.Sorted (· ≤ ·)
      ((sel.map (fun p => ((p.2 : ℚ) : WithTop ℚ))) ++ List.replicate n (⊤ : WithTop ℚ)) := by
  rw [List.Sorted, List.pairwise_append]
  refine ⟨?_, ?_, ?_⟩
  · exact List.pairwise_map.mpr (hs.imp (fun h => by
      exact_mod_cast WithTop.coe_le_coe.mpr (nnLe_le_snd h)))
  · exact (List.pairwise_replicate).mpr (Or.inr (le_refl _))
  · intro a _ b hb
    rw [List.eq_of_mem_replicate hb]
    exact le_top

/-- The per-row contract of knn_search at one query row: k-length index and
distance rows, distances ascending, each real slot holding a reference
index with its true (squared) distance, sentinel slots holding (-1, ⊤),
and no unselected reference point closer than any selected one. -/
def knnRowSpec (pts : List Point) (q : Point) (k : Nat)
    (irow : List Int) (drow : List (WithTop ℚ)) : Prop :=
  irow.length = k ∧ drow.length = k ∧
  List.Sorted (· ≤ ·) drow ∧
  (∀ j, j < min k pts.length →
    ∃ (i : Nat) (p : Point), irow.get? j = some (i : Int) ∧ pts.get? i = some p ∧
      drow.get? j = some ((dist2 q p : ℚ) : WithTop ℚ)) ∧
  (∀ j, min k pts.length ≤ j → j < k →
    irow.get? j = some (-1) ∧ drow.get? j = some ⊤) ∧
  (∀ i' p', pts.get? i' = some p' → ((i' : Int) ∉ irow.take (min k pts.length)) →
    ∀ dv ∈ drow.take (min k pts.length), dv ≤ ((dist2 q p' : ℚ) : WithTop ℚ))

theorem knnRow_spec (pts : List Point) (q : Point) (k : Nat) :
    knnRowSpec pts q k (knnRow pts q k).1 (knnRow pts q k).2 := by
  unfold knnRow knnRowSpec
  simp only
  have hlr : (rankedNeighbors pts q).length = pts.length := rankedNeighbors_length pts q
  have hls : ((rankedNeighbors pts q).take k).length = min k pts.length := by
    rw [List.length_take, hlr]
  have hmin : min k pts.length ≤ k := Nat.min_le_left _ _
  have hsorted_sel : List.Sorted nnLe ((rankedNeighbors pts q).take k) :=
    List.Pairwise.sublist (List.take_sublist k _) (rankedNeighbors_sorted pts q)
  refine ⟨?_, ?_, ?_, ?_, ?_, ?_⟩
  · simp only [List.length_append, List.length_map, List.length_replicate, hls]
    omega
  · simp only [List.length_append, List.length_map, List.length_replicate, hls]
    omega
  · exact sorted_cast_pad _ _ hsorted_sel
  · intro j hj
    have hj' : j < ((rankedNeighbors pts q).take k).length := by omega
    obtain ⟨a, hget⟩ : ∃ a, ((rankedNeighbors pts q).take k).get? j = some a :=
      ⟨_, List.get?_eq_get hj'⟩
    have hmem : a ∈ rankedNeighbors pts q :=
      List.take_subset k _ (List.get?_mem hget)
    obtain ⟨p, hp, hd⟩ := (mem_rankedNeighbors_iff pts q a.1 a.2).mp (by
      rw [Prod.mk.eta]
      exact hmem)
    refine ⟨a.1, p, ?_, hp, ?_⟩
    · rw [List.get?_append (by simpa using hj'), List.get?_map, hget]
      rfl
    · rw [List.get?_append (by simpa using hj'), List.get?_map, hget, ← hd]
      rfl
  · intro j h1 h2
    constructor
    · rw [List.get?_append_right (by simp; omega)]
      rw [List.get?_eq_getElem?, List.getElem?_replicate]
      rw [if_pos (by simp [hls]; omega)]
    · rw [List.get?_append_right (by simp; omega)]
      rw [List.get?_eq_getElem?, List.getElem?_replicate]
      rw [if_pos (by simp [hls]; omega)]
  · intro i' p' hp' hnot dv hdv
    have htakeD : (((rankedNeighbors pts q).take k).map (fun p => ((p.2 : ℚ) : WithTop ℚ))
        ++ List.replicate (k - ((rankedNeighbors pts q).take k).length) (⊤ : WithTop ℚ)).take
          (min k pts.length)
        = ((rankedNeighbors pts q).take k).map (fun p => ((p.2 : ℚ) : WithTop ℚ)) := by
      have : min k pts.length
          = (((rankedNeighbors pts q).take k).map (fun p => ((p.2 : ℚ) : WithTop ℚ))).length := by
        rw [List.length_map, hls]
      rw [this, List.take_left]
    have htakeI : (((rankedNeighbors pts q).take k).map (fun p => ((p.1 : Nat) : Int))
        ++ List.replicate (k - ((rankedNeighbors pts q).take k).length) (-1 : Int)).take
          (min k pts.length)
        = ((rankedNeighbors pts q).take k).map (fun p => ((p.1 : Nat) : Int)) := by
      have : min k pts.length
          = (((rankedNeighbors pts q).take k).map (fun p => ((p.1 : Nat) : Int))).length := by
        rw [List.length_map, hls]
      rw [this, List.take_left]
    rw [htakeD] at hdv
    rw [htakeI] at hnot
    obtain ⟨a, ha, rfl⟩ := List.mem_map.mp hdv
    have hmemr : (i', dist2 q p') ∈ rankedNeighbors pts q :=
      (mem_rankedNeighbors_iff pts q i' (dist2 q p')).mpr ⟨p', hp', rfl⟩
    have hsplit := List.take_append_drop k (rankedNeighbors pts q)
    have hcase : (i', dist2 q p') ∈ (rankedNeighbors pts q).take k
        ∨ (i', dist2 q p') ∈ (rankedNeighbors pts q).drop k := by
      rw [← List.mem_append, hsplit]
      exact hmemr
    rcases hcase with hin | hin
    · exact absurd (List.mem_map.mpr ⟨(i', dist2 q p'), hin, rfl⟩) hnot
    · have hrel : nnLe a (i', dist2 q p') :=
        (rankedNeighbors_sorted pts q).rel_of_mem_take_of_mem_drop ha hin
      exact_mod_cast WithTop.coe_le_coe.mpr (nnLe_le_snd hrel)

/-- C8: with the knn build done, knn_search returns an M-row index result
and an M-row distance result; every row has length k, its distances are
ascending, each real slot holds a reference index with that reference
point's (squared) distance to the query row, the slots beyond the number
of reference points hold the sentinel (-1, ⊤), and no unselected reference
point is closer than any selected one.  The model is a pure function of
its inputs, so repeated calls agree definitionally. -/
theorem c8_knn_search_sorted_sentinel (s : NearestNeighborSearch) (query : List Point)
    (k : Nat) (hs : s.mode = NNSMode.knnReady) :
    ∃ idxs dists, s.knn_search query k = .ok (idxs, dists) ∧
      idxs.length = query.length ∧ dists.length = query.length ∧
      ∀ m q, query.get? m = some q →
        ∃ irow drow, idxs.get? m = some irow ∧ dists.get? m = some drow ∧
          knnRowSpec s.points q k irow drow := by
  refine ⟨query.map (fun q => (knnRow s.points q k).1),
          query.map (fun q => (knnRow s.points q k).2), ?_, by simp, by simp, ?_⟩
  · unfold NearestNeighborSearch.knn_search
    rw [hs]
  · intro m q hm
    refine ⟨_, _, ?_, ?_, knnRow_spec s.points q k⟩
    · rw [List.get?_map, hm]
      rfl
    · rw [List.get?_map, hm]
      rfl

/-- A small reference point set for the search witnesses. -/
def exPts : List Point := [[0, 0], [1, 0], [0, 3]]

/-- A one-row query coincident with the first reference point. -/
def exQuery : List Point := [[0, 0]]

/-- C8 witness: the knn claim at a knn-built index with k = 5 greater than
the three reference points (exercising the sentinel padding). -/
theorem c8_knn_search_sorted_sentinel_witness :
    ∃ idxs dists,
      ((NearestNeighborSearch.init exPts).knn_index).knn_search exQuery 5 = .ok (idxs, dists) ∧
      idxs.length = exQuery.length ∧ dists.length = exQuery.length ∧
      ∀ m q, exQuery.get? m = some q →
        ∃ irow drow, idxs.get? m = some irow ∧ dists.get? m = some drow ∧
          knnRowSpec ((NearestNeighborSearch.init exPts).knn_index).points q 5 irow drow :=
  c8_knn_search_sorted_sentinel ((NearestNeighborSearch.init exPts).knn_index) exQuery 5 rfl

theorem scanSplits_length : ∀ lens : List Nat, (scanSplits lens).length = lens.length + 1
  | [] => rfl
  | n :: ns => by
    simp [scanSplits, scanSplits_length ns]

theorem scanSplits_get? : ∀ (lens : List Nat) (m : Nat), m ≤ lens.length →
    (scanSplits lens).get? m = some ((lens.take m).sum)
  | [], 0, _ => rfl
  | [], m + 1, h => by simp at h
  | n :: ns, 0, _ => rfl
  | n :: ns, m + 1, h => by
    show ((scanSplits ns).map (fun v => n + v)).get? m = _
    rw [List.get?_map, scanSplits_get? ns m (by simpa using h)]
    simp

theorem dist2_self : ∀ q : Point, dist2 q q = 0
  | [] => rfl
  | a :: as => by
    have ih := dist2_self as
    simp [dist2] at ih ⊢

theorem per_join_get? {β : Type} (per : List (List (Nat × ℚ))) (f : Nat × ℚ → β)
    (m posr : Nat) (row : List (Nat × ℚ)) (pair : Nat × ℚ)
    (hrow : per.get? m = some row) (hpos : row.get? posr = some pair) :
    ((per.map (fun l => l.map f)).join).get?
      (((per.map List.length).take m).sum + posr) = some (f pair) := by
  have hblock : (per.map (fun l => l.map f)).get? m = some (row.map f) := by
    rw [List.get?_map, hrow]
    rfl
  obtain ⟨hlt, -⟩ := List.get?_eq_some.mp hpos
  have hlen : posr < (row.map f).length := by
    rw [List.length_map]
    exact hlt
  have hsum : ((((per.map (fun l => l.map f)).take m).map List.length).sum : Nat)
      = ((per.map List.length).take m).sum := by
    rw [← List.map_take, ← List.map_take, List.map_map]
    congr 1
    apply List.map_congr_left
    intro l _
    simp
  have hj := join_get? (per.map (fun l => l.map f)) m posr (row.map f) hblock hlen
  rw [hsum] at hj
  rw [hj, List.get?_map, hpos]
  rfl

/-- C6: with the fixed-radius build done, the neighbor_splits offsets are
monotonically non-decreasing, start at 0, and their final entry equals the
common length of the flat index and distance arrays; and a query row
coincident with a reference point has that reference point somewhere in
its own segment of the flat arrays with (squared) distance 0. -/
theorem c6_fixed_radius_splits_and_coincident (s : NearestNeighborSearch)
    (query : List Point) (r r0 : ℚ) (hs : s.mode = NNSMode.radiusReady r0) :
    ∃ fi fd splits, s.fixed_radius_search query r = .ok (fi, fd, splits) ∧
      fi.length = fd.length ∧
      splits.length = query.length + 1 ∧
      splits.get? 0 = some 0 ∧
      splits.get? query.length = some fi.length ∧
      (∀ m a b, splits.get? m = some a → splits.get? (m + 1) = some b → a ≤ b) ∧
      (∀ m q j p, query.get? m = some q → s.points.get? j = some p → p = q →
        ∃ pos a b, splits.get? m = some a ∧ splits.get? (m + 1) = some b ∧
          a ≤ pos ∧ pos < b ∧ fi.get? pos = some ((j : Nat) : Int) ∧
          fd.get? pos = some 0) := by
  have hok : s.fixed_radius_search query r = .ok
      (((query.map (fun q => radiusRow s.points q r)).map
          (fun l => l.map (fun p => ((p.1 : Nat) : Int)))).join,
       ((query.map (fun q => radiusRow s.points q r)).map (fun l => l.map Prod.snd)).join,
       scanSplits ((query.map (fun q => radiusRow s.points q r)).map List.length)) := by
    unfold NearestNeighborSearch.fixed_radius_search
    rw [hs]
  have hlens : ((query.map (fun q => radiusRow s.points q r)).map List.length).length
      = query.length := by simp
  have hfiLen : (((query.map (fun q => radiusRow s.points q r)).map
      (fun l => l.map (fun p => ((p.1 : Nat) : Int)))).join).length
      = ((query.map (fun q => radiusRow s.points q r)).map List.length).sum := by
    simp [List.length_join, List.map_map, Function.comp_def]
  refine ⟨_, _, _, hok, ?_, ?_, ?_, ?_, ?_, ?_⟩
  · simp [List.length_join, List.map_map, Function.comp_def]
  · simp [scanSplits_length]
  · simpa using scanSplits_get? _ 0 (Nat.zero_le _)
  · rw [← hlens, scanSplits_get? _ _ (le_refl _), List.take_length, hfiLen]
  · intro m a b ha hb
    obtain ⟨hlt, -⟩ := List.get?_eq_some.mp hb
    rw [scanSplits_length] at hlt
    have ha' := scanSplits_get? ((query.map (fun q => radiusRow s.points q r)).map List.length)
      m (by omega)
    have hb' := scanSplits_get? ((query.map (fun q => radiusRow s.points q r)).map List.length)
      (m + 1) (by omega)
    rw [ha] at ha'
    rw [hb] at hb'
    have hstep : ((((query.map (fun q => radiusRow s.points q r)).map List.length).take
        (m + 1)).sum : Nat)
        = (((query.map (fun q => radiusRow s.points q r)).map List.length).take m).sum
          + (((query.map (fun q => radiusRow s.points q r)).map List.length)[m]?).toList.sum := by
      rw [List.take_succ, List.sum_append]
    have haa := Option.some.inj ha'
    have hbb := Option.some.inj hb'
    omega
  · intro m q j p hm hj hpq
    have hper : (query.map (fun q => radiusRow s.points q r)).get? m
        = some (radiusRow s.points q r) := by
      rw [List.get?_map, hm]
      rfl
    have hmem : ((j, (0 : ℚ)) : Nat × ℚ) ∈ radiusRow s.points q r := by
      unfold radiusRow
      rw [List.mem_filter]
      refine ⟨(mem_rankedNeighbors_iff s.points q j 0).mpr ⟨p, hj, by rw [hpq, dist2_self]⟩, ?_⟩
      simpa using sq_nonneg r
    obtain ⟨posr, hpos⟩ := List.mem_iff_get?.mp hmem
    obtain ⟨hposlt, -⟩ := List.get?_eq_some.mp hpos
    obtain ⟨hmlt, -⟩ := List.get?_eq_some.mp hm
    have hlm : ((query.map (fun q => radiusRow s.points q r)).map List.length).get? m
        = some (radiusRow s.points q r).length := by
      rw [List.get?_map, hper]
      rfl
    have ha := scanSplits_get? ((query.map (fun q => radiusRow s.points q r)).map List.length)
      m (by omega)
    have hb := scanSplits_get? ((query.map (fun q => radiusRow s.points q r)).map List.length)
      (m + 1) (by omega)
    have hstep : ((((query.map (fun q => radiusRow s.points q r)).map List.length).take
        (m + 1)).sum : Nat)
        = (((query.map (fun q => radiusRow s.points q r)).map List.length).take m).sum
          + (radiusRow s.points q r).length := by
      rw [List.take_succ, List.sum_append]
      rw [← List.get?_eq_getElem?, hlm]
      rfl
    refine ⟨(((query.map (fun q => radiusRow s.points q r)).map List.length).take m).sum
        + posr, _, _, ha, hb, Nat.le_add_right _ _, ?_, ?_, ?_⟩
    · omega
    · exact per_join_get? (query.map (fun q => radiusRow s.points q r))
        (fun p => ((p.1 : Nat) : Int)) m posr (radiusRow s.points q r) (j, 0) hper hpos
    · exact per_join_get? (query.map (fun q => radiusRow s.points q r))
        Prod.snd m posr (radiusRow s.points q r) (j, 0) hper hpos

/-- C6 witness: the fixed-radius claim at a radius-built index over the
three example points with the coincident one-row query. -/
theorem c6_fixed_radius_splits_and_coincident_witness :
    ∃ fi fd splits,
      ((NearestNeighborSearch.init exPts).fixed_radius_index (1/10)).fixed_radius_search
        exQuery (1/10) = .ok (fi, fd, splits) ∧
      fi.length = fd.length ∧
      splits.length = exQuery.length + 1 ∧
      splits.get? 0 = some 0 ∧
      splits.get? exQuery.length = some fi.length ∧
      (∀ m a b, splits.get? m = some a → splits.get? (m + 1) = some b → a ≤ b) ∧
      (∀ m q j p, exQuery.get? m = some q →
        ((NearestNeighborSearch.init exPts).fixed_radius_index (1/10)).points.get? j = some p →
        p = q →
        ∃ pos a b, splits.get? m = some a ∧ splits.get? (m + 1) = some b ∧
          a ≤ pos ∧ pos < b ∧ fi.get? pos = some ((j : Nat) : Int) ∧
          fd.get? pos = some 0) :=
  c6_fixed_radius_splits_and_coincident
    ((NearestNeighborSearch.init exPts).fixed_radius_index (1/10)) exQuery (1/10) (1/10) rfl

/-- The per-row contract of hybrid_search at one query row: maxKnn-length
rows, count at most maxKnn, distances ascending, each real slot holding a
reference index whose (squared) distance is within the (squared) query
radius, and sentinel (-1, ⊤) beyond the count. -/
def hybridRowSpec (pts : List Point) (q : Point) (r : ℚ) (maxKnn : Nat)
    (irow : List Int) (drow : List (WithTop ℚ)) (cnt : Nat) : Prop :=
  irow.length = maxKnn ∧ drow.length = maxKnn ∧ cnt ≤ maxKnn ∧
  List.Sorted (· ≤ ·) drow ∧
  (∀ j, j < cnt →
    ∃ (i : Nat) (p : Point), irow.get? j = some (i : Int) ∧ pts.get? i = some p ∧
      drow.get? j = some ((dist2 q p : ℚ) : WithTop ℚ) ∧ dist2 q p ≤ r ^ 2) ∧
  (∀ j, cnt ≤ j → j < maxKnn → irow.get? j = some (-1) ∧ drow.get? j = some ⊤)

theorem hybridRow_spec (pts : List Point) (q : Point) (r : ℚ) (maxKnn : Nat) :
    hybridRowSpec pts q r maxKnn (hybridRow pts q r maxKnn).1
      (hybridRow pts q r maxKnn).2.1 (hybridRow pts q r maxKnn).2.2 := by
  unfold hybridRow hybridRowSpec
  simp only
  have hsorted_row : List.Sorted nnLe (radiusRow pts q r) := by
    unfold radiusRow
    exact (rankedNeighbors_sorted pts q).filter _
  have hsorted_sel : List.Sorted nnLe ((radiusRow pts q r).take maxKnn) :=
    List.Pairwise.sublist (List.take_sublist _ _) hsorted_row
  have hlsel : ((radiusRow pts q r).take maxKnn).length ≤ maxKnn := by
    rw [List.length_take]
    omega
  refine ⟨?_, ?_, hlsel, ?_, ?_, ?_⟩
  · simp only [List.length_append, List.length_map, List.length_replicate]
    omega
  · simp only [List.length_append, List.length_map, List.length_replicate]
    omega
  · exact sorted_cast_pad _ _ hsorted_sel
  · intro j hj
    obtain ⟨a, hget⟩ : ∃ a, ((radiusRow pts q r).take maxKnn).get? j = some a :=
      ⟨_, List.get?_eq_get hj⟩
    have hrowmem : a ∈ radiusRow pts q r := List.take_subset _ _ (List.get?_mem hget)
    have hfil := List.mem_filter.mp (show a ∈ (rankedNeighbors pts q).filter
      (fun p => decide (p.2 ≤ r ^ 2)) from hrowmem)
    have hmem : a ∈ rankedNeighbors pts q := hfil.1
    have hpred : a.2 ≤ r ^ 2 := by simpa using hfil.2
    obtain ⟨p, hp, hd⟩ := (mem_rankedNeighbors_iff pts q a.1 a.2).mp (by
      rw [Prod.mk.eta]
      exact hmem)
    refine ⟨a.1, p, ?_, hp, ?_, by rw [← hd]; exact hpred⟩
    · rw [List.get?_append (by simpa using hj), List.get?_map, hget]
      rfl
    · rw [List.get?_append (by simpa using hj), List.get?_map, hget, ← hd]
      rfl
  · intro j h1 h2
    constructor
    · rw [List.get?_append_right (by simpa using h1), List.get?_eq_getElem?,
        List.getElem?_replicate, if_pos (by simp only [List.length_map]; omega)]
    · rw [List.get?_append_right (by simpa using h1), List.get?_eq_getElem?,
        List.getElem?_replicate, if_pos (by simp only [List.length_map]; omega)]

/-- C7: with the hybrid build done, every returned per-query neighbor count
is at most max_knn, every returned (un-padded) squared distance is within
the squared query radius, each query's distances are ascending, and slots
beyond the count hold the sentinel (-1, ⊤). -/
theorem c7_hybrid_search_counts_radius_sorted (s : NearestNeighborSearch)
    (query : List Point) (r r0 : ℚ) (maxKnn : Nat)
    (hs : s.mode = NNSMode.hybridReady r0) :
    ∃ idxs dists counts, s.hybrid_search query r maxKnn = .ok (idxs, dists, counts) ∧
      idxs.length = query.length ∧ dists.length = query.length ∧
      counts.length = query.length ∧
      ∀ m q, query.get? m = some q →
        ∃ irow drow cnt, idxs.get? m = some irow ∧ dists.get? m = some drow ∧
          counts.get? m = some cnt ∧ hybridRowSpec s.points q r maxKnn irow drow cnt := by
  refine ⟨query.map (fun q => (hybridRow s.points q r maxKnn).1),
          query.map (fun q => (hybridRow s.points q r maxKnn).2.1),
          query.map (fun q => (hybridRow s.points q r maxKnn).2.2),
          ?_, by simp, by simp, by simp, ?_⟩
  · unfold NearestNeighborSearch.hybrid_search
    rw [hs]
  · intro m q hm
    refine ⟨_, _, _, ?_, ?_, ?_, hybridRow_spec s.points q r maxKnn⟩
    · rw [List.get?_map, hm]
      rfl
    · rw [List.get?_map, hm]
      rfl
    · rw [List.get?_map, hm]
      rfl

/-- Reference points at (squared) distances 0, 1/25 and 1 from the origin:
the middle one is outside radius 1/10 but inside radius 3/10. -/
def exPts2 : List Point := [[0, 0], [1/5, 0], [1, 0]]

/-- C7 witness: the hybrid claim at a hybrid-built index (build radius 0.1)
queried with radius 0.3 and max_knn 10, mirroring the notebook call. -/
theorem c7_hybrid_search_counts_radius_sorted_witness :
    ∃ idxs dists counts,
      ((NearestNeighborSearch.init exPts2).hybrid_index (1/10)).hybrid_search
        exQuery (3/10) 10 = .ok (idxs, dists, counts) ∧
      idxs.length = exQuery.length ∧ dists.length = exQuery.length ∧
      counts.length = exQuery.length ∧
      ∀ m q, exQuery.get? m = some q →
        ∃ irow drow cnt, idxs.get? m = some irow ∧ dists.get? m = some drow ∧
          counts.get? m = some cnt ∧
          hybridRowSpec ((NearestNeighborSearch.init exPts2).hybrid_index (1/10)).points
            q (3/10) 10 irow drow cnt :=
  c7_hybrid_search_counts_radius_sorted
    ((NearestNeighborSearch.init exPts2).hybrid_index (1/10)) exQuery (3/10) (1/10) 10 rfl

/-- C10: a hybrid-built index accepts a query-time radius different from
the build-time radius, and the query-time radius alone determines the
result: the search output is invariant under the build radius, and each
returned count is exactly the number of reference points within the
(squared) query-time radius, capped at max_knn. -/
theorem c10_hybrid_query_radius_governs (s : NearestNeighborSearch) (r1 r2 rq : ℚ)
    (query : List Point) (maxKnn : Nat) :
    (s.hybrid_index r1).hybrid_search query rq maxKnn
      = (s.hybrid_index r2).hybrid_search query rq maxKnn ∧
    ∀ idxs dists counts,
      (s.hybrid_index r1).hybrid_search query rq maxKnn = .ok (idxs, dists, counts) →
      ∀ m q, query.get? m = some q →
        counts.get? m = some (min maxKnn
          ((s.points.map (fun p => dist2 q p)).countP (fun d => decide (d ≤ rq ^ 2)))) := by
  constructor
  · rfl
  · intro idxs dists counts hok m q hm
    have htriple := Except.ok.inj hok
    have hcounts : counts = query.map (fun q => (hybridRow s.points q rq maxKnn).2.2) :=
      (congrArg (fun t => t.2.2) htriple).symm
    have hcnt : (hybridRow s.points q rq maxKnn).2.2
        = min maxKnn ((s.points.map (fun p => dist2 q p)).countP
            (fun d => decide (d ≤ rq ^ 2))) := by
      unfold hybridRow
      simp only [List.length_take]
      congr 1
      unfold radiusRow
      rw [← List.countP_eq_length_filter]
      rw [(rankedNeighbors_perm s.points q).countP_eq]
      rw [show (fun (p : Nat × ℚ) => decide (p.2 ≤ rq ^ 2))
          = ((fun d => decide (d ≤ rq ^ 2)) ∘ Prod.snd) from rfl]
      rw [← List.countP_map]
      rw [List.enum_map_snd]
    rw [hcounts, List.get?_map, hm]
    rw [Option.map_some']
    rw [hcnt]

/-- C10 witness: the query-radius claim at the example points, built with
radius 0.1 and 0.2 and searched with radius 0.3 (the notebook builds with
0.1 and searches with 0.3). -/
theorem c10_hybrid_query_radius_governs_witness :
    ((NearestNeighborSearch.init exPts2).hybrid_index (1/10)).hybrid_search exQuery (3/10) 10
      = ((NearestNeighborSearch.init exPts2).hybrid_index (2/10)).hybrid_search
          exQuery (3/10) 10 ∧
    ∀ idxs dists counts,
      ((NearestNeighborSearch.init exPts2).hybrid_index (1/10)).hybrid_search
        exQuery (3/10) 10 = .ok (idxs, dists, counts) →
      ∀ m q, exQuery.get? m = some q →
        counts.get? m = some (min 10
          (((NearestNeighborSearch.init exPts2).points.map (fun p => dist2 q p)).countP
            (fun d => decide (d ≤ (3/10) ^ 2)))) :=
  c10_hybrid_query_radius_governs (NearestNeighborSearch.init exPts2) (1/10) (2/10) (3/10)
    exQuery 10
